import Mathlib

/-!
Verification of the EMS (Embedded Music Score) compile-time parser
(`ems_parser.hpp`).  The parser turns a score string into an array of
`Note` values (frequency ratio, duration in milliseconds) in two passes:
`Parser::count_notes` determines the capacity `N`, then `Parser::parse<N>`
fills the array.

Embedding conventions:
* Strings are `List Char`; the C cursor `i` into `score` becomes suffix
  passing (the remaining characters).
* The C loops of `count_notes`, `parse`'s body loop and the header-skip
  loop advance the cursor by at least one character per iteration; they are
  embedded as fuel recursion where the fuel is the length of the remaining
  input, which the consumption lemmas below show is never exhausted early.
* `float` values are embedded as exact rationals together with an explicit
  binary32 round-to-nearest-even operation `f32round`, applied exactly
  where the C code performs a `float` operation: each multiplication of
  `power` (the ratio path), the conversion of the parsed tempo to `float`,
  the division `60000.0f / bpm`, and the product `ms_per_beat * dur_mult`
  whose `uint32_t` cast is an explicit floor (the operands are
  non-negative).  The `dur_mult` accumulator adds the constants 1.0f,
  0.5f, 0.25f, 2.0f; these additions are embedded exactly (every sum the
  claims reach is far below 2^22 and hence exactly representable, so the
  float additions round nothing).
* C `int` / `size_t` become `ℤ` / `ℕ`; no claim exercises overflow.
-/

-- The Batteries rational arithmetic definitions are `@[irreducible]`,
-- which blocks the `decide`-style evaluation used throughout this file;
-- restore their default reducibility.
unseal Rat.mul Rat.add Rat.sub Rat.inv Rat.ofScientific

set_option maxRecDepth 16384

namespace Ems

/-! ### Binary32 (IEEE-754 single precision) rounding model -/

/-- Number of binary digits of `n` (`0` for `0`); `fuel` bounds the
recursion depth and is always instantiated `≥` the actual bit count. -/
def bitlen : ℕ → ℕ → ℕ
  | 0, _ => 0
  | f + 1, n => if n = 0 then 0 else bitlen f (n / 2) + 1

/-- For `x > 0`, the exponent `e` with `2 ^ e ≤ x < 2 ^ (e + 1)`. -/
def expOf (x : ℚ) : ℤ :=
  let a : ℤ := (bitlen 256 x.num.toNat : ℤ) - (bitlen 256 x.den : ℤ)
  if x < (2 : ℚ) ^ a then a - 1 else a

/-- Round a rational to an integer, ties to even. -/
def roundHalfEven (q : ℚ) : ℤ :=
  let n := ⌊q⌋
  let f := q - (n : ℚ)
  if f < 1 / 2 then n
  else if 1 / 2 < f then n + 1
  else if n % 2 = 0 then n else n + 1

/-- Round a positive rational to the nearest binary32 value
(24-bit significand, round to nearest, ties to even).  All values reached
in this development are in the normal range, far from overflow and
underflow, so exponent clamping and subnormals need no model. -/
def f32roundPos (x : ℚ) : ℚ :=
  let e := expOf x
  (roundHalfEven (x * (2 : ℚ) ^ (23 - e)) : ℚ) * (2 : ℚ) ^ (e - 23)

/-- Round a rational to the nearest binary32 value. -/
def f32round (x : ℚ) : ℚ :=
  if x = 0 then 0
  else if x < 0 then -f32roundPos (-x)
  else f32roundPos x

/-- Binary32 multiplication: exact product, then one rounding. -/
def fmul (a b : ℚ) : ℚ := f32round (a * b)

/-- Binary32 division: exact quotient, then one rounding. -/
def fdiv (a b : ℚ) : ℚ := f32round (a / b)

/-! ### Pitch arithmetic (`internal::power`, `internal::calculate_ratio`) -/

/-- The value of the `float` literal `1.059463094f` (`SEMITONE_STEP`,
the source's approximation of the twelfth root of two): the binary32
value nearest to the decimal `1.059463094` is `8887421 / 2^23`. -/
def SEMITONE_STEP : ℚ := (8887421 : ℚ) / 8388608

/-- The loop of `internal::power` for a non-negative exponent:
`res = 1.0f; for (i = 0; i < exp; ++i) res *= base;` with one binary32
rounding per multiplication. -/
def powLoop (base : ℚ) : ℕ → ℚ
  | 0 => 1
  | n + 1 => fmul (powLoop base n) base

/-- `internal::power`: `1` for exponent `0`, the multiplication loop for
positive exponents, and the reciprocal (one `float` division) of the
positive-exponent value for negative exponents. -/
def powerF (base : ℚ) (e : ℤ) : ℚ :=
  if e = 0 then 1
  else if e < 0 then fdiv 1 (powLoop base (-e).toNat)
  else powLoop base e.toNat

/-- The array `scale_semitones[] = {0, 0, 2, 4, 5, 7, 9, 11}` indexed by
the scale degree (index 0 is padding, degrees 1..7 map to the table
{0, 2, 4, 5, 7, 9, 11}). -/
def scaleSemitone (n : ℕ) : ℤ := ([0, 0, 2, 4, 5, 7, 9, 11] : List ℤ).getD n 0

/-- `internal::calculate_ratio`: `0` for a rest (degree 0), otherwise
`power(SEMITONE_STEP, scale_semitones[num] + octave * 12 + semi - 9)`. -/
def calculate_ratio (num : ℕ) (octave_offset semitone_offset : ℤ) : ℚ :=
  if num = 0 then 0
  else powerF SEMITONE_STEP
    (scaleSemitone num + octave_offset * 12 + semitone_offset - 9)

/-! ### Characters and note events -/

/-- The backquote character (the octave marker of the grammar).  Written
via its code point so that the marker has a single definition site. -/
def bq : Char := Char.ofNat 96

/-- `c >= '0' && c <= '7'`: a scale-degree digit. -/
def isDigit07 (c : Char) : Bool := decide ('0' ≤ c ∧ c ≤ '7')

/-- `c >= '0' && c <= '9'`: a digit as consumed by `parse_int`. -/
def isDigit09 (c : Char) : Bool := decide ('0' ≤ c ∧ c ≤ '9')

/-- The condition of `parse`'s body loop for starting a note:
`(c >= '0' && c <= '7') || c == '`'`. -/
def isNoteStart (c : Char) : Bool := isDigit07 c || c = bq

/-- The compiled note event `ems::Note`.  `float ratio` is embedded as an
exact rational (all values produced are binary32 values); `uint32_t
duration_ms` as `ℕ` (no claim reaches 2^32). -/
structure Note where
  ratio : ℚ
  duration_ms : ℕ
deriving DecidableEq, Repr

/-- The per-note parse state of `parse`'s body loop just before the two
resolver calls: `num`, `oct`, `semi`, `dur_mult`. -/
structure RawNote where
  num : ℕ
  oct : ℤ
  semi : ℤ
  dur : ℚ
deriving DecidableEq, Repr

/-! ### Header parsing (`internal::parse_int`, `parse` section 1) -/

/-- `internal::parse_int`: consume a run of decimal digits accumulating
`val = val * 10 + digit`, returning the value and the rest of the input.
C `int` is embedded as `ℕ` (the accumulator never overflows in any claim;
digits make it non-negative). -/
def parse_int : ℕ → List Char → ℕ × List Char
  | acc, [] => (acc, [])
  | acc, c :: r =>
    if isDigit09 c then parse_int (acc * 10 + (c.toNat - 48)) r
    else (acc, c :: r)

/-- `if (i < score.size() && score[i] == ')') i++;` — skip one close
delimiter if it is the character the digit run stopped at. -/
def closeSkip : List Char → List Char
  | [] => []
  | c :: r => if c = ')' then r else c :: r

/-- Header parsing of `Parser::parse`: if the first character is `'('`,
read an integer and skip one `')'` if it immediately follows; otherwise
leave the input untouched and keep the default of `120`.  Returns the
bpm value and the remaining input. -/
def parseHeader : List Char → ℕ × List Char
  | [] => (120, [])
  | c :: r =>
    if c = '(' then ((parse_int 0 r).1, closeSkip (parse_int 0 r).2)
    else (120, c :: r)

/-- `bpm = static_cast<float>(parse_int(...)); ms_per_beat =
60000.0f / bpm`: the parsed integer converted to binary32, then one
binary32 division.  For `bpm = 0` the C expression divides by zero with
no guard (the model's rational division by zero yields `0` there — the
absence of the guard is what the claims exercise). -/
def msPerBeat (bpm : ℕ) : ℚ := fdiv 60000 (f32round (bpm : ℚ))

/-! ### The suffix-modifier loop (`parse` section 3) -/

/-- The suffix-modifier loop of `parse`: starting from the duration-phase
flag `pd` (`parsing_duration`) and the accumulated `oct`, `semi`, `dur`,
consume modifier characters until a character that ends the run (which is
left in the returned rest).  Pitch modifiers (`'s'`, `'b'`, backquote)
are consumed only while `pd = false`; once a duration modifier
(`','`, `'-'`, `'.'`, `'_'`) has been consumed, `pd` is `true` and a pitch
modifier ends the run without being consumed. -/
def parseMods : Bool → ℤ → ℤ → ℚ → List Char → (ℤ × ℤ × ℚ) × List Char
  | _, oct, semi, dur, [] => ((oct, semi, dur), [])
  | pd, oct, semi, dur, c :: r =>
    if c = 's' then
      if pd then ((oct, semi, dur), c :: r)
      else parseMods pd oct (semi + 1) dur r
    else if c = 'b' then
      if pd then ((oct, semi, dur), c :: r)
      else parseMods pd oct (semi - 1) dur r
    else if c = bq then
      if pd then ((oct, semi, dur), c :: r)
      else parseMods pd (oct + 1) semi dur r
    else if c = ',' then parseMods true oct semi (dur + 1) r
    else if c = '-' then parseMods true oct semi (dur + 1 / 2) r
    else if c = '.' then parseMods true oct semi (dur + 1 / 4) r
    else if c = '_' then parseMods true oct semi (dur + 2) r
    else ((oct, semi, dur), c :: r)

/-- Step 1 of a body-loop iteration: consume an optional backquote
prefix, which lowers the octave (`oct--`). -/
def parseStart : List Char → ℤ × List Char
  | [] => (0, [])
  | c :: r => if c = bq then (-1, r) else (0, c :: r)

/-- Step 2 of a body-loop iteration: consume an optional scale-degree
digit (`num = score[i] - '0'`); a non-digit leaves `num = 0`. -/
def parseDigit : List Char → ℕ × List Char
  | [] => (0, [])
  | c :: r => if isDigit07 c then (c.toNat - 48, r) else (0, c :: r)

/-- One iteration of `parse`'s body loop on a note start:
an optional backquote prefix (octave down), an optional scale-degree
digit, then the suffix-modifier loop starting with `parsing_duration =
false` and `oct`, `semi`, `dur_mult` from the prefix.  Returns the raw
note fields and the rest of the input. -/
def parseNoteRaw (l : List Char) : RawNote × List Char :=
  let s1 := parseStart l
  let s2 := parseDigit s1.2
  let m := parseMods false s1.1 0 0 s2.2
  (⟨s2.1, m.1.1, m.1.2.1, m.1.2.2⟩, m.2)

/-! ### The body loops

The C body loops advance the cursor by at least one character per
iteration, so the remaining input length strictly decreases; the loops
are embedded with the remaining length as fuel (`parseNoteRaw_rest_le`
below shows the fuel is never exhausted early). -/

/-- The body loop of `parse` without the capacity bound: at a note-start
character run one `parseNoteRaw` iteration, otherwise skip one
character. -/
def parseBodyF : ℕ → List Char → List RawNote
  | 0, _ => []
  | _ + 1, [] => []
  | f + 1, c :: r =>
    if isNoteStart c then
      (parseNoteRaw (c :: r)).1 :: parseBodyF f (parseNoteRaw (c :: r)).2
    else parseBodyF f r

/-- The unbounded note stream of `parse`'s body loop. -/
def parseBodyRaw (l : List Char) : List RawNote := parseBodyF l.length l

/-- The two resolver assignments at the end of a body-loop iteration:
`notes[note_idx].ratio = calculate_ratio(num, oct, semi)` and
`notes[note_idx].duration_ms = (uint32_t)(ms_per_beat * dur_mult)` — one
binary32 multiplication, then the cast (truncation of a non-negative
value = floor). -/
def mkNote (msb : ℚ) (rn : RawNote) : Note :=
  ⟨calculate_ratio rn.num rn.oct rn.semi, (⌊fmul msb rn.dur⌋).toNat⟩

/-- The body loop of `parse` with the capacity bound: the loop condition
`i < score.size() && note_idx < N` is re-checked each iteration and one
note is written per note-start iteration.  Each element records the array
index written (`note_idx`) and the `Note` stored there. -/
def parseBodyB (msb : ℚ) (N : ℕ) : ℕ → ℕ → List Char → List (ℕ × Note)
  | 0, _, _ => []
  | _ + 1, _, [] => []
  | f + 1, idx, c :: r =>
    if idx < N then
      if isNoteStart c then
        (idx, mkNote msb (parseNoteRaw (c :: r)).1) ::
          parseBodyB msb N f (idx + 1) (parseNoteRaw (c :: r)).2
      else parseBodyB msb N f idx r
    else []

/-- `Parser::parse<N>`: header, then the bounded body loop.  The result
is the list of array writes `(index, note)` in order; the returned
`std::array` holds exactly these values (all other slots keep the
zero-initialised `Note{}`). -/
def parse (N : ℕ) (l : List Char) : List (ℕ × Note) :=
  parseBodyB (msPerBeat (parseHeader l).1) N (parseHeader l).2.length 0
    (parseHeader l).2

/-! ### `Parser::count_notes` -/

/-- Advance past one `'('` group: skip to the first `')'` and one step
beyond it (`while (i < size && score[i] != ')') i++; i++;`). -/
def dropParen (l : List Char) : List Char :=
  (l.dropWhile (fun c => c != ')')).drop 1

/-- The header-skip loop of `count_notes`: repeatedly skip leading
`'('` groups, stopping at the first character that opens none. -/
def skipHeaderF : ℕ → List Char → List Char
  | 0, l => l
  | _ + 1, [] => []
  | f + 1, c :: r => if c = '(' then skipHeaderF f (dropParen r) else c :: r

/-- The post-header body as seen by `count_notes`. -/
def skipHeader (l : List Char) : List Char := skipHeaderF l.length l

/-- The body scan of `count_notes`: one character per iteration,
incrementing the count exactly on scale-degree digits `'0'..'7'`. -/
def countBody : List Char → ℕ
  | [] => 0
  | c :: r => (if isDigit07 c then 1 else 0) + countBody r

/-- `Parser::count_notes`: skip the header, then count. -/
def count_notes (l : List Char) : ℕ := countBody (skipHeader l)

/-- The user-defined literal `operator""_ems`: count to fix the capacity
`N`, then parse with that capacity. -/
def emsNotes (l : List Char) : List (ℕ × Note) := parse (count_notes l) l

/-! ### Spec-side duration accounting -/

/-- The additive duration contribution of one modifier character as the
spec states it: `','` one beat, `'-'` half, `'.'` quarter, `'_'` double;
anything else contributes nothing. -/
def durContrib (c : Char) : ℚ :=
  if c = ',' then 1
  else if c = '-' then 1 / 2
  else if c = '.' then 1 / 4
  else if c = '_' then 2
  else 0

/-- Total duration contribution of a character list. -/
def durSum : List Char → ℚ
  | [] => 0
  | c :: r => durContrib c + durSum r

/-- `strictIncr l = true` iff the rationals in `l` are strictly
increasing from first to last. -/
def strictIncr : List ℚ → Bool
  | [] => true
  | [_] => true
  | a :: b :: r => decide (a < b) && strictIncr (b :: r)

/-! ### Concrete inputs used by the claims -/

/-- The end-to-end example score of the spec. -/
def exC3 : List Char := ("(120)1,2,3,4,5,6,7,1`").toList

/-- Tempo 23, one note accumulating 5.75 beats (1 + 1/2 + 1/4 + 2 + 2):
a score on which the float-rounded duration arithmetic of the source
differs from the exact formula `round_down((60000 / tempo) * total)`. -/
def exC5 : List Char := ("(23)1,-.__").toList

/-! ### Structural lemmas about the modifier loop -/

/-- The modifier loop only consumes characters. -/
theorem parseMods_rest_le (l : List Char) :
    ∀ pd oct semi dur, ((parseMods pd oct semi dur l).2).length ≤ l.length := by
  induction l with
  | nil => intro pd o s d; simp [parseMods]
  | cons c r ih =>
    intro pd o s d
    simp only [parseMods]
    split_ifs <;>
      first
        | exact Nat.le_succ_of_le (ih ..)
        | simp

/-- Every character the modifier loop consumes is a modifier character,
none of which is a scale-degree digit: the digit count of the remaining
input is unchanged. -/
theorem parseMods_countBody (l : List Char) :
    ∀ pd oct semi dur, countBody ((parseMods pd oct semi dur l).2) = countBody l := by
  induction l with
  | nil => intro pd o s d; rfl
  | cons c r ih =>
    intro pd o s d
    simp only [parseMods]
    split_ifs <;>
      first
        | rfl
        | (subst_vars
           rw [ih]
           simp only [countBody]
           rw [if_neg (by decide)]
           omega)

/-- The duration accumulator of the modifier loop is additive: the final
total is the initial total plus the contributions of exactly the
consumed characters (equivalently, final + contributions of the rest =
initial + contributions of the whole input). -/
theorem parseMods_durSum (l : List Char) :
    ∀ pd oct semi dur,
      (parseMods pd oct semi dur l).1.2.2 + durSum ((parseMods pd oct semi dur l).2) =
        dur + durSum l := by
  induction l with
  | nil => intro pd o s d; rfl
  | cons c r ih =>
    intro pd o s d
    simp only [parseMods]
    split_ifs <;>
      first
        | rfl
        | (subst_vars
           rw [ih]
           simp only [durSum]
           rw [show durContrib 's' = 0 from by decide]
           ring)
        | (subst_vars
           rw [ih]
           simp only [durSum]
           rw [show durContrib 'b' = 0 from by decide]
           ring)
        | (subst_vars
           rw [ih]
           simp only [durSum]
           rw [show durContrib bq = 0 from by decide]
           ring)
        | (subst_vars
           rw [ih]
           simp only [durSum]
           rw [show durContrib ',' = 1 from by decide]
           ring)
        | (subst_vars
           rw [ih]
           simp only [durSum]
           rw [show durContrib '-' = 1 / 2 from by decide]
           ring)
        | (subst_vars
           rw [ih]
           simp only [durSum]
           rw [show durContrib '.' = 1 / 4 from by decide]
           ring)
        | (subst_vars
           rw [ih]
           simp only [durSum]
           rw [show durContrib '_' = 2 from by decide]
           ring)

/-- A note-start character is the backquote or a scale-degree digit. -/
theorem isNoteStart_elim {c : Char} (h : isNoteStart c = true) :
    c = bq ∨ isDigit07 c = true := by
  by_cases h1 : c = bq
  · exact Or.inl h1
  · right
    simpa [isNoteStart, h1] using h

/-- Unfolding `parseStart` on a backquote. -/
theorem parseStart_bq (r : List Char) : parseStart (bq :: r) = (-1, r) := by
  simp [parseStart]

/-- Unfolding `parseStart` on any other character. -/
theorem parseStart_other {c : Char} (r : List Char) (h : ¬(c = bq)) :
    parseStart (c :: r) = (0, c :: r) := by
  simp [parseStart, h]

/-- Unfolding `parseDigit` on a scale-degree digit. -/
theorem parseDigit_digit {c : Char} (r : List Char) (h : isDigit07 c = true) :
    parseDigit (c :: r) = (c.toNat - 48, r) := by
  simp [parseDigit, h]

/-- Unfolding `parseDigit` on a non-digit. -/
theorem parseDigit_other {c : Char} (r : List Char) (h : ¬(isDigit07 c = true)) :
    parseDigit (c :: r) = (0, c :: r) := by
  simp [parseDigit, h]

/-- A note-start iteration consumes at least the note-start character. -/
theorem parseNoteRaw_rest_le (c : Char) (r : List Char) (h : isNoteStart c = true) :
    ((parseNoteRaw (c :: r)).2).length ≤ r.length := by
  rcases isNoteStart_elim h with hb | hb
  · subst hb
    rcases r with _ | ⟨d, r'⟩
    · simp [parseNoteRaw, parseStart, parseDigit, parseMods]
    · by_cases hd : isDigit07 d = true
      · simp only [parseNoteRaw, parseStart_bq, parseDigit_digit r' hd]
        exact Nat.le_succ_of_le (parseMods_rest_le ..)
      · simp only [parseNoteRaw, parseStart_bq, parseDigit_other r' hd]
        exact parseMods_rest_le ..
  · have hcb : ¬(c = bq) := by
      intro hc; subst hc; revert hb; decide
    simp only [parseNoteRaw, parseStart_other r hcb, parseDigit_digit r hb]
    exact parseMods_rest_le ..

/-- A note-start iteration consumes at most one scale-degree digit. -/
theorem parseNoteRaw_countBody (c : Char) (r : List Char) :
    countBody (c :: r) ≤ 1 + countBody ((parseNoteRaw (c :: r)).2) := by
  by_cases hb : c = bq
  · subst hb
    have hc7 : isDigit07 bq = false := by decide
    rcases r with _ | ⟨d, r'⟩
    · simp [parseNoteRaw, parseStart, parseDigit, parseMods, countBody, hc7]
    · by_cases hd : isDigit07 d = true
      · simp only [parseNoteRaw, parseStart_bq, parseDigit_digit r' hd]
        rw [parseMods_countBody]
        simp [countBody, hc7, hd]
      · simp only [parseNoteRaw, parseStart_bq, parseDigit_other r' hd]
        rw [parseMods_countBody]
        simp [countBody, hc7]
  · by_cases hc : isDigit07 c = true
    · simp only [parseNoteRaw, parseStart_other r hb, parseDigit_digit r hc]
      rw [parseMods_countBody]
      simp [countBody, hc]
    · simp only [parseNoteRaw, parseStart_other r hb, parseDigit_other r hc]
      rw [parseMods_countBody]
      simp [countBody, hc]

/-! ### The body loop produces at least one note per counted digit -/

/-- A scale-degree digit starts a note. -/
theorem isDigit07_isNoteStart {c : Char} (h : isDigit07 c = true) :
    isNoteStart c = true := by
  simp [isNoteStart, h]

/-- Each digit `'0'..'7'` of the remaining input lies in some note group
of the body scan, and each group holds at most one digit, so the
unbounded body scan produces at least `countBody l` notes. -/
theorem countBody_le_parseBodyF :
    ∀ (f : ℕ) (l : List Char), l.length ≤ f → countBody l ≤ (parseBodyF f l).length := by
  intro f
  induction f with
  | zero =>
    intro l hl
    have : l = [] := List.length_eq_zero.mp (Nat.le_zero.mp hl)
    subst this
    simp [parseBodyF, countBody]
  | succ f ih =>
    intro l hl
    rcases l with _ | ⟨c, r⟩
    · simp [parseBodyF, countBody]
    · have hr : r.length ≤ f := by simpa using hl
      by_cases hs : isNoteStart c = true
      · simp only [parseBodyF, if_pos hs, List.length_cons]
        have h1 := parseNoteRaw_countBody c r
        have h2 := ih ((parseNoteRaw (c :: r)).2)
          (le_trans (parseNoteRaw_rest_le c r hs) hr)
        omega
      · have hc : isDigit07 c = false := by
          cases hcc : isDigit07 c
          · rfl
          · exact absurd (isDigit07_isNoteStart hcc) hs
        simp only [parseBodyF, if_neg hs]
        have h2 := ih r hr
        simp [countBody, hc]
        omega

/-! ### The bounded body loop -/

/-- The bounded loop writes `min (N - idx) M` notes, where `M` is the
length of the unbounded note stream of the same input. -/
theorem parseBodyB_length (msb : ℚ) (N : ℕ) :
    ∀ (f : ℕ) (idx : ℕ) (l : List Char), l.length ≤ f →
      (parseBodyB msb N f idx l).length = min (N - idx) (parseBodyF f l).length := by
  intro f
  induction f with
  | zero =>
    intro idx l hl
    have : l = [] := List.length_eq_zero.mp (Nat.le_zero.mp hl)
    subst this
    simp [parseBodyB, parseBodyF]
  | succ f ih =>
    intro idx l hl
    rcases l with _ | ⟨c, r⟩
    · simp [parseBodyB, parseBodyF]
    · have hr : r.length ≤ f := by simpa using hl
      by_cases hidx : idx < N
      · by_cases hs : isNoteStart c = true
        · simp only [parseBodyB, parseBodyF, if_pos hidx, if_pos hs, List.length_cons]
          rw [ih (idx + 1) _ (le_trans (parseNoteRaw_rest_le c r hs) hr)]
          omega
        · simp only [parseBodyB, parseBodyF, if_pos hidx, if_neg hs]
          exact ih idx r hr
      · simp only [parseBodyB, if_neg hidx]
        have h0 : N - idx = 0 := by omega
        simp [h0]

/-- Every write of the bounded loop targets an index in `[idx, N)`. -/
theorem parseBodyB_mem_idx (msb : ℚ) (N : ℕ) :
    ∀ (f : ℕ) (idx : ℕ) (l : List Char) (p : ℕ × Note),
      p ∈ parseBodyB msb N f idx l → idx ≤ p.1 ∧ p.1 < N := by
  intro f
  induction f with
  | zero =>
    intro idx l p hp
    simp [parseBodyB] at hp
  | succ f ih =>
    intro idx l p hp
    rcases l with _ | ⟨c, r⟩
    · simp [parseBodyB] at hp
    · by_cases hidx : idx < N
      · by_cases hs : isNoteStart c = true
        · simp only [parseBodyB, if_pos hidx, if_pos hs, List.mem_cons] at hp
          rcases hp with rfl | hp
          · exact ⟨le_refl _, hidx⟩
          · have h := ih (idx + 1) _ p hp
            exact ⟨by omega, h.2⟩
        · simp only [parseBodyB, if_pos hidx, if_neg hs] at hp
          exact ih idx r p hp
      · simp only [parseBodyB, if_neg hidx] at hp
        simp at hp

/-! ### The two header readers -/

/-- `parse_int` stops at the first non-digit. -/
theorem parse_int_rest :
    ∀ (l : List Char) (acc : ℕ), (parse_int acc l).2 = l.dropWhile isDigit09 := by
  intro l
  induction l with
  | nil => intro acc; rfl
  | cons c r ih =>
    intro acc
    by_cases h : isDigit09 c = true
    · simp only [parse_int, if_pos h, List.dropWhile_cons_of_pos h]
      exact ih _
    · simp only [parse_int, if_neg h]
      rw [List.dropWhile_cons_of_neg h]

/-- A decimal digit is not the close delimiter. -/
theorem isDigit09_ne_rparen {c : Char} (h : isDigit09 c = true) : (c != ')') = true := by
  by_cases hc : c = ')'
  · subst hc; revert h; decide
  · exact bne_iff_ne.mpr hc

/-- Scanning for the first `')'` may start after the digit run: the
digits are all distinct from `')'`. -/
theorem dropWhile_rparen_digits (l : List Char) :
    l.dropWhile (fun c => c != ')') =
      (l.dropWhile isDigit09).dropWhile (fun c => c != ')') := by
  induction l with
  | nil => rfl
  | cons c r ih =>
    by_cases h : isDigit09 c = true
    · rw [List.dropWhile_cons, if_pos (isDigit09_ne_rparen h),
        List.dropWhile_cons_of_pos h]
      exact ih
    · rw [List.dropWhile_cons_of_neg h]

/-- The header-skip loop of `count_notes` returns a suffix of its
input. -/
theorem skipHeaderF_suffix : ∀ (f : ℕ) (l : List Char), skipHeaderF f l <:+ l := by
  intro f
  induction f with
  | zero => intro l; exact List.suffix_rfl
  | succ f ih =>
    intro l
    rcases l with _ | ⟨c, r⟩
    · exact List.suffix_rfl
    · by_cases h : c = '('
      · simp only [skipHeaderF, if_pos h]
        have h2 : dropParen r <:+ r := by
          unfold dropParen
          exact (List.drop_suffix _ _).trans (List.dropWhile_suffix _)
        exact (ih _).trans (h2.trans (List.suffix_cons c r))
      · simp only [skipHeaderF, if_neg h]
        exact List.suffix_rfl

/-- The body seen by `count_notes` is a suffix of the body seen by
`parse`: `parse`'s header reader never advances the cursor beyond the
point where `count_notes`'s header skip ends. -/
theorem skipHeader_suffix_parseHeader (l : List Char) :
    skipHeader l <:+ (parseHeader l).2 := by
  rcases l with _ | ⟨c, r⟩
  · exact List.suffix_rfl
  · by_cases h : c = '('
    · subst h
      have e1 : skipHeader ('(' :: r) = skipHeaderF r.length (dropParen r) := by
        simp [skipHeader, skipHeaderF]
      have e2 : (parseHeader ('(' :: r)).2 = closeSkip (r.dropWhile isDigit09) := by
        simp [parseHeader, parse_int_rest]
      rw [e1, e2]
      have key : dropParen r <:+ closeSkip (r.dropWhile isDigit09) := by
        unfold dropParen
        rw [dropWhile_rparen_digits r]
        rcases hu : r.dropWhile isDigit09 with _ | ⟨x, t⟩
        · simp [closeSkip]
        · by_cases hx : x = ')'
          · subst hx
            rw [List.dropWhile_cons, if_neg (by simp)]
            simp [closeSkip]
          · have hxx : (x != ')') = true := bne_iff_ne.mpr hx
            rw [List.dropWhile_cons, if_pos hxx]
            simp only [closeSkip, if_neg hx]
            exact ((List.drop_suffix _ _).trans (List.dropWhile_suffix _)).trans
              (List.suffix_cons _ _)
      exact (skipHeaderF_suffix _ _).trans key
    · have e1 : skipHeader (c :: r) = c :: r := by
        simp [skipHeader, skipHeaderF, h]
      have e2 : (parseHeader (c :: r)).2 = c :: r := by
        simp [parseHeader, h]
      rw [e1, e2]

/-- `countBody` is additive. -/
theorem countBody_append (a b : List Char) :
    countBody (a ++ b) = countBody a + countBody b := by
  induction a with
  | nil => simp [countBody]
  | cons c r ih => simp [countBody, ih]; omega

/-- `countBody` of a suffix is at most `countBody` of the whole. -/
theorem countBody_suffix_le {u v : List Char} (h : u <:+ v) :
    countBody u ≤ countBody v := by
  obtain ⟨w, rfl⟩ := h
  rw [countBody_append]
  omega

/-- The count of `count_notes` never exceeds the length of the unbounded
note stream that `parse`'s body loop would produce. -/
theorem count_notes_le_unbounded (l : List Char) :
    count_notes l ≤ (parseBodyF (parseHeader l).2.length (parseHeader l).2).length :=
  le_trans (countBody_suffix_le (skipHeader_suffix_parseHeader l))
    (countBody_le_parseBodyF _ _ le_rfl)

/-! ### The claims -/

/-- C1: for every input string, the number of note events produced by the
full two-pass pipeline (count the notes to fix the capacity `N`, then
parse with that capacity) equals the Note Counter's count on the same
string; equivalently, the bounded body loop writes all `N` slots before
or exactly when the input is exhausted. -/
theorem count_parse_pipeline_agree (l : List Char) :
    (emsNotes l).length = count_notes l := by
  unfold emsNotes parse
  rw [parseBodyB_length _ _ _ 0 _ le_rfl]
  have h := count_notes_le_unbounded l
  omega

/-- C2: in duration phase (after any duration modifier), a pitch-modifier
character (`'s'`, `'b'`, backquote) is not consumed: the modifier run
ends with that character still in the remaining input, so the outer scan
attributes it to the next note (a backquote becomes its octave-down
prefix).  Before duration phase, pitch modifiers are consumed normally.
In particular, parsing "1,`2," leaves the first note's octave at 0 and
gives the second note octave -1. -/
theorem duration_phase_ends_modifier_run :
    (∀ (oct semi : ℤ) (dur : ℚ) (r : List Char) (c : Char),
        c = 's' ∨ c = 'b' ∨ c = bq →
        parseMods true oct semi dur (c :: r) = ((oct, semi, dur), c :: r)) ∧
    (∀ (oct semi : ℤ) (dur : ℚ) (r : List Char),
        parseMods false oct semi dur ('s' :: r) = parseMods false oct (semi + 1) dur r ∧
        parseMods false oct semi dur ('b' :: r) = parseMods false oct (semi - 1) dur r ∧
        parseMods false oct semi dur (bq :: r) = parseMods false (oct + 1) semi dur r) ∧
    parseBodyRaw (("1,`2,").toList) = [⟨1, 0, 0, 1⟩, ⟨2, -1, 0, 1⟩] := by
  refine ⟨?_, ?_, by decide⟩
  · intro o s d r c hc
    rcases hc with rfl | rfl | rfl
    · simp [parseMods]
    · simp [parseMods]
    · simp [parseMods]
  · intro o s d r
    refine ⟨?_, ?_, ?_⟩
    · simp [parseMods]
    · simp [parseMods]
    · simp [parseMods]
      rw [if_neg (by decide), if_neg (by decide)]

/-- C2 witness: a backquote right after a duration modifier is left
unconsumed. -/
theorem duration_phase_ends_modifier_run_witness :
    parseMods true 0 0 0 (bq :: []) = ((0, 0, 0), bq :: []) :=
  duration_phase_ends_modifier_run.1 0 0 0 [] bq (Or.inr (Or.inr rfl))

/-- C3 counterexample: in the end-to-end example not every note has
`duration_ms == 500` — the eighth note (`1` with octave-up and no
duration modifier) has duration 0. -/
theorem example_score_not_all_500 :
    ¬(∀ p ∈ emsNotes exC3, p.2.duration_ms = 500) := by decide

/-- C3 amended: "(120)1,2,3,4,5,6,7,1`" produces exactly 8 note events;
the first seven have `duration_ms == 500` and the eighth has 0 (it has
no duration modifier); ratios strictly increase from the first event to
the last; the final ratio differs from double the first ratio by less
than 1e-6 but is not exactly double (the semitone-step constant's 12th
power is not exactly 2). -/
theorem example_score_events :
    (emsNotes exC3).length = 8 ∧
    ((emsNotes exC3).map fun p => p.2.duration_ms) =
      [500, 500, 500, 500, 500, 500, 500, 0] ∧
    strictIncr ((emsNotes exC3).map fun p => p.2.ratio) = true ∧
    ((emsNotes exC3).getD 7 (0, ⟨0, 0⟩)).2.ratio ≠
      2 * ((emsNotes exC3).getD 0 (0, ⟨0, 0⟩)).2.ratio ∧
    |((emsNotes exC3).getD 7 (0, ⟨0, 0⟩)).2.ratio -
        2 * ((emsNotes exC3).getD 0 (0, ⟨0, 0⟩)).2.ratio| < 1 / 1000000 := by
  refine ⟨by decide, by decide, by decide, by decide, by decide⟩

/-- C4: the pitch resolver is a pure function of the three arguments:
scale degree 0 yields ratio 0 regardless of the other two; degrees 1..7
map through the table {0, 2, 4, 5, 7, 9, 11}, add `octave * 12` and the
semitone offset, subtract 9 (Do-to-A), and the ratio is the power of the
semitone-step constant at that exponent, computed by repeated
multiplication (with the reciprocal of the positive power for negative
exponents) rather than a transcendental power call. -/
theorem calculate_ratio_spec :
    (∀ o s : ℤ, calculate_ratio 0 o s = 0) ∧
    (∀ (n : ℕ) (o s : ℤ), 1 ≤ n → n ≤ 7 →
        calculate_ratio n o s =
          powerF SEMITONE_STEP (scaleSemitone n + o * 12 + s - 9)) ∧
    (scaleSemitone 1 = 0 ∧ scaleSemitone 2 = 2 ∧ scaleSemitone 3 = 4 ∧
      scaleSemitone 4 = 5 ∧ scaleSemitone 5 = 7 ∧ scaleSemitone 6 = 9 ∧
      scaleSemitone 7 = 11) ∧
    (∀ b : ℚ, powerF b 0 = 1) ∧
    (∀ (b : ℚ) (n : ℕ), 0 < n → powerF b (n : ℤ) = powLoop b n) ∧
    (∀ (b : ℚ) (n : ℕ), powLoop b (n + 1) = fmul (powLoop b n) b) ∧
    (∀ (b : ℚ) (e : ℤ), e < 0 → powerF b e = fdiv 1 (powLoop b (-e).toNat)) := by
  refine ⟨fun o s => rfl, ?_, by decide, fun b => rfl, ?_, fun b n => rfl, ?_⟩
  · intro n o s h1 h7
    unfold calculate_ratio
    rw [if_neg (by omega)]
  · intro b n hn
    unfold powerF
    rw [if_neg (by omega), if_neg (by omega)]
    simp
  · intro b e he
    unfold powerF
    rw [if_neg (by omega), if_pos he]

/-- C4 witness: the non-rest formula at degree 5, octave 2, semitone -1,
and the reciprocal rule at exponent -9. -/
theorem calculate_ratio_spec_witness :
    calculate_ratio 5 2 (-1) =
      powerF SEMITONE_STEP (scaleSemitone 5 + 2 * 12 + (-1) - 9) ∧
    powerF SEMITONE_STEP (-9) = fdiv 1 (powLoop SEMITONE_STEP 9) :=
  ⟨calculate_ratio_spec.2.1 5 2 (-1) (by decide) (by decide),
   by
    have h := calculate_ratio_spec.2.2.2.2.2.2 SEMITONE_STEP (-9) (by decide)
    simpa using h⟩

/-- C5 counterexample: the duration is not
`round_down((60000 / tempo) * duration_total)` computed exactly.  On
tempo 23 with one note accumulating 5.75 beats ("(23)1,-.__"), the
source's binary32 arithmetic (ms_per_beat rounds down to
2608.695556640625, and the product 14999.9990234375 floors to 14999)
emits 14999 ms, while the exact product is exactly 15000. -/
theorem duration_not_exact_floor :
    (parseHeader exC5).1 = 23 ∧
    ((parseBodyRaw (parseHeader exC5).2).map fun rn => rn.dur) = [23 / 4] ∧
    ((emsNotes exC5).map fun p => p.2.duration_ms) = [14999] ∧
    (⌊(60000 / (23 : ℚ)) * (23 / 4)⌋).toNat = 15000 := by
  refine ⟨by decide, by decide, by decide, by decide⟩

/-- C5 amended: `ms_per_beat` is the binary32 quotient of `60000` by the
binary32 value of the parsed tempo, and each note's `duration_ms` is the
floor (the `uint32_t` cast) of the binary32 product of `ms_per_beat`
with the note's accumulated beat total — equal to
`round_down((60000 / tempo) * total)` whenever those roundings are
exact, as at tempo 120, but not in general.  The modifier loop
accumulates the total additively (`','` +1, `'-'` +1/2, `'.'` +1/4,
`'_'` +2 — the value after the run is the value before it plus the
contributions of exactly the consumed characters); a note with no
duration modifier accumulates 0 and yields `duration_ms = 0`; at tempo
120 a note followed by `','` then `'-'` yields 750 ms. -/
theorem duration_resolution :
    (∀ (msb : ℚ) (rn : RawNote),
        (mkNote msb rn).duration_ms = (⌊fmul msb rn.dur⌋).toNat) ∧
    (∀ bpm : ℕ, msPerBeat bpm = fdiv 60000 (f32round (bpm : ℚ))) ∧
    (∀ (pd : Bool) (oct semi : ℤ) (dur : ℚ) (l : List Char),
        (parseMods pd oct semi dur l).1.2.2 +
            durSum ((parseMods pd oct semi dur l).2) =
          dur + durSum l) ∧
    (durContrib ',' = 1 ∧ durContrib '-' = 1 / 2 ∧ durContrib '.' = 1 / 4 ∧
      durContrib '_' = 2) ∧
    msPerBeat 120 = 500 ∧
    ((emsNotes (("1,-").toList)).map fun p => p.2.duration_ms) = [750] ∧
    ((emsNotes (("1").toList)).map fun p => p.2.duration_ms) = [0] :=
  ⟨fun _ _ => rfl, fun _ => rfl,
   fun pd oct semi dur l => parseMods_durSum l pd oct semi dur,
   by decide, by decide, by decide, by decide⟩

/-- C6: the Note Counter misses octave-down note starts.  The claim (and
the counter's own comment, "Detect Note Start: 0-7 or prefix `") says a
backquote is counted as a note start, but `count_notes` counts only the
digits: on "`" it returns 0 while the body loop of `parse` recognizes one
note there, and on "1,`," it returns 1 while the body loop recognizes 2
notes, so the pipeline silently drops the trailing backquote-prefixed
rest. -/
theorem count_notes_misses_backquote_start :
    count_notes (("`").toList) = 0 ∧
    isNoteStart bq = true ∧
    (parseBodyRaw (("`").toList)).length = 1 ∧
    count_notes (("1,`,").toList) = 1 ∧
    (parseBodyRaw (("1,`,").toList)).length = 2 ∧
    (emsNotes (("1,`,").toList)).length = 1 := by
  refine ⟨by decide, by decide, by decide, by decide, by decide, by decide⟩

/-- C7: when the capacity `N` is smaller than the Note Counter's count,
`parse<N>` writes exactly `N` note events and every write targets an
array index strictly below `N`; the remaining input is discarded with no
error. -/
theorem truncation_bound (l : List Char) (N : ℕ) (h : N < count_notes l) :
    (parse N l).length = N ∧ ∀ p ∈ parse N l, p.1 < N := by
  constructor
  · unfold parse
    rw [parseBodyB_length _ _ _ 0 _ le_rfl]
    have hc := count_notes_le_unbounded l
    omega
  · intro p hp
    exact (parseBodyB_mem_idx _ _ _ _ _ p hp).2

/-- C7 witness: capacity 2 on a 3-note score. -/
theorem truncation_bound_witness :
    2 < count_notes (("1,2,3").toList) ∧
    ((parse 2 (("1,2,3").toList)).length = 2 ∧
      ∀ p ∈ parse 2 (("1,2,3").toList), p.1 < 2) :=
  ⟨by decide, truncation_bound (("1,2,3").toList) 2 (by decide)⟩

/-- C8 counterexample: the ratio for scale degree 1 with one octave-up
modifier is not exactly double the ratio with no octave modifier (the
two binary32 results differ by 3/2^22). -/
theorem octave_up_not_exact_double :
    calculate_ratio 1 1 0 ≠ 2 * calculate_ratio 1 0 0 := by decide

/-- C8 amended: the ratio for degree 1 with octave offset 1 is double the
ratio with octave offset 0 only approximately: the difference is nonzero
but smaller than 1e-6 (the semitone-step constant's 12th power is not
exactly 2, and the two values round differently). -/
theorem octave_up_approx_double :
    calculate_ratio 1 1 0 ≠ 2 * calculate_ratio 1 0 0 ∧
    |calculate_ratio 1 1 0 - 2 * calculate_ratio 1 0 0| < 1 / 1000000 := by
  refine ⟨by decide, by decide⟩

/-- C9 counterexample: the header reader does not "skip to the close
delimiter `')'` if found".  On "(12x3)4" the `')'` is present, yet after
reading the tempo 12 the cursor is left at the `'x'` (not past the
`')'`): the remaining input is "x3)4", not "4", and the body loop then
parses the `'3'` inside the malformed header as a note, so the note
stream is 3, 4 rather than just 4. -/
theorem header_reader_no_scan_to_rparen :
    (parseHeader (("(12x3)4").toList)).1 = 12 ∧
    (parseHeader (("(12x3)4").toList)).2 = ("x3)4").toList ∧
    ¬((parseHeader (("(12x3)4").toList)).2 = ("4").toList) ∧
    ((parseBodyRaw ((parseHeader (("(12x3)4").toList)).2)).map fun rn => rn.num) =
      [3, 4] := by
  refine ⟨by decide, by decide, by decide, by decide⟩

/-- C9 amended: if the score starts with `'('`, the header reader parses
the digit run as the tempo, stopping at the first non-digit, and skips
the close delimiter `')'` only when that is precisely the character the
digit run stopped at, advancing the cursor past it (a `')'` further away
is not scanned for: the cursor stays at the non-digit and the rest of
the malformed header is left to the body scan); otherwise the cursor is
untouched and the tempo is the default 120, so a headerless body gets
`ms_per_beat = 500`; no header shape raises an error (all the functions
are total). -/
theorem header_reader_spec :
    parseHeader [] = (120, []) ∧
    (∀ (c : Char) (r : List Char), ¬(c = '(') →
        parseHeader (c :: r) = (120, c :: r)) ∧
    (∀ r : List Char,
        parseHeader ('(' :: r) = ((parse_int 0 r).1, closeSkip (parse_int 0 r).2)) ∧
    (∀ r : List Char, (parse_int 0 r).2 = r.dropWhile isDigit09) ∧
    (∀ r : List Char, closeSkip (')' :: r) = r) ∧
    msPerBeat 120 = 500 ∧
    ((emsNotes (("1,").toList)).map fun p => p.2.duration_ms) = [500] := by
  refine ⟨rfl, ?_, ?_, fun r => parse_int_rest r 0, ?_, by decide, by decide⟩
  · intro c r h
    simp [parseHeader, h]
  · intro r
    simp [parseHeader]
  · intro r
    simp [closeSkip]

/-- C9 witness: a score not starting with `'('` keeps cursor and default
tempo. -/
theorem header_reader_spec_witness :
    parseHeader ('1' :: 'x' :: []) = (120, '1' :: 'x' :: []) :=
  header_reader_spec.2.1 '1' ('x' :: []) (by decide)

/-- C10: an empty or zero header digit run ("()", "(0)") makes the tempo
0, and `ms_per_beat` is computed as `60000 / tempo` with that zero
divisor before any note is emitted — no operation guards the divisor
(the parse still emits the body's notes). -/
theorem zero_tempo_unguarded :
    (parseHeader (("()1,").toList)).1 = 0 ∧
    (parseHeader (("(0)1,").toList)).1 = 0 ∧
    msPerBeat 0 = 60000 / (0 : ℚ) ∧
    (emsNotes (("(0)1,").toList)).length = 1 := by
  refine ⟨by decide, by decide, by decide, by decide⟩

end Ems
